import Mathlib

/-!
Verification of the flag store and guard of `nest-feature-guard`.

The development shallowly embeds the two core source components:

* `RedisFeatureFlagCache` (src/redis-feature-flag-cache.ts): the Redis-backed
  store with `setFeatureFlag`, `getFeature` and `hasFeatureFlag`.  The Redis
  state relevant to one flag is the `enabled` field of the `:info` hash
  (a string, absent when never written) and the members of the `:users` set.
* `FeatureGuard.canActivate` (src/feature-guard.ts): the per-request guard
  that reads `__user_id`, `__is_admin` and the decorator metadata, consults
  the store, writes the evaluated value into `__feature_flags` and returns
  the access decision.

Stateful Redis operations are embedded as explicit state passing on
`RedisState`; the guard additionally returns the list of store calls it
performed, so that frame conditions ("the store is never consulted") are
provable statements.
-/

namespace FeatureGuardSpec

/-- A JavaScript runtime value, as can appear in the untyped `__is_admin`
request field at runtime (the TypeScript annotation `boolean | undefined`
is not enforced at runtime). -/
inductive JsVal where
  | vBool (b : Bool)
  | vStr (s : String)
  | vNum (n : Int)
  | vObj
  | vArr
  | vUndefined
deriving DecidableEq, Repr

/-- The strict comparison `isAdmin === true` from the source: only the
boolean value `true` passes; `"true"`, `1`, objects, arrays, `undefined`
and `false` all fail. -/
def isAdminStrictTrue : JsVal → Bool
  | JsVal.vBool true => true
  | _ => false

/-- The Redis state attached to one flag name: the value of the `enabled`
field of the `{prefix}:{flag}:info` hash (`none` when the field is absent,
e.g. the flag was never written), and the members of the
`{prefix}:{flag}:users` set (an absent set reads as empty via `smembers`). -/
structure FlagEntry where
  enabledField : Option String
  users : List String
deriving DecidableEq, Repr

/-- The whole Redis state under one key prefix: one `FlagEntry` per flag
name. -/
def RedisState := String → FlagEntry

/-- The argument of `setFeatureFlag` (interface `SetFeatureFlagOptions`):
`userIds` is `none` when the optional field is absent. -/
structure SetFeatureFlagOptions where
  flag : String
  enabled : Bool
  userIds : Option (List String)

/-- Redis `SADD`: append each member not already present, in order.  This is
the effect of one `sadd(key, ...batch)` call on the set contents. -/
def sadd (cur : List String) (members : List String) : List String :=
  members.foldl (fun acc m => if acc.contains m then acc else acc ++ [m]) cur

/-- The batched insertion loop of `setFeatureFlag`: users are added in
batches of 1000 (`for (let i = 0; i < userIds.length; i += batchSize)`). -/
def saddBatches (cur : List String) (ids : List String) : List String :=
  if h : ids = [] then cur
  else saddBatches (sadd cur (ids.take 1000)) (ids.drop 1000)
termination_by ids.length
decreasing_by
  have hl : 0 < ids.length := List.length_pos.mpr h
  simp [List.length_drop]
  omega

/-- `RedisFeatureFlagCache.setFeatureFlag`: writes the `enabled` field as the
string `"true"` or `"false"` via `hmset`; when a non-empty `userIds` list is
given it deletes the users set and re-adds all ids in batches; otherwise it
deletes the users set. -/
def setFeatureFlag (st : RedisState) (o : SetFeatureFlagOptions) : RedisState :=
  fun f =>
    if f = o.flag then
      let e := st f
      let e1 : FlagEntry :=
        { e with enabledField := some (if o.enabled then "true" else "false") }
      match o.userIds with
      | some ids =>
        if ids.length > 0 then
          { e1 with users := saddBatches [] ids }
        else
          { e1 with users := [] }
      | none => { e1 with users := [] }
    else st f

/-- The record returned by `getFeature` when non-null: `enabled` as a
boolean and the optional `userIds` array. -/
structure Feature where
  enabled : Bool
  userIds : Option (List String)
deriving DecidableEq, Repr

/-- `RedisFeatureFlagCache.getFeature`: null when the `enabled` field is
absent from the info hash; otherwise `enabled := info.enabled === "true"`
and `userIds` is the users set when non-empty, `undefined` otherwise. -/
def getFeature (st : RedisState) (flag : String) : Option Feature :=
  match (st flag).enabledField with
  | none => none
  | some v =>
    let enabled := v == "true"
    let userIds := (st flag).users
    some { enabled := enabled
           userIds := if userIds.length > 0 then some userIds else none }

/-- `RedisFeatureFlagCache.hasFeatureFlag`: false when the `enabled` field is
absent; false when the feature is disabled (`enabled !== "true"`); true when
enabled with an empty users set (global feature); otherwise membership of
`userId` in the users set. -/
def hasFeatureFlag (st : RedisState) (flag : String) (userId : String) : Bool :=
  match (st flag).enabledField with
  | none => false
  | some v =>
    let enabled := v == "true"
    if !enabled then false
    else
      let userIds := (st flag).users
      let hasUsers := userIds.length > 0
      if !hasUsers then true
      else userIds.contains userId

/-- The decorator metadata scope (`FeatureFlagScope`). -/
inductive FeatureFlagScope where
  | CONTROLLER
  | SERVICE
deriving DecidableEq, Repr

/-- The request object fields that `canActivate` reads and writes
(`FeatureGuardRequest`): `__user_id`, `__is_admin` (untyped at runtime) and
the `__feature_flags` object, modelled as an association list in key
insertion order (an absent `__feature_flags` spreads like the empty
object). -/
structure FeatureGuardRequest where
  userId : Option String
  isAdmin : JsVal
  featureFlags : List (String × Bool)
deriving DecidableEq, Repr

/-- The metadata the reflector supplies for the handler: the flag name set
by `@FeatureFlag` (`none` for both `undefined` and `null`) and the optional
scope from the options object (`none` when the options or the scope field
are absent). -/
structure ReflectorData where
  flag : Option String
  scope : Option FeatureFlagScope
deriving DecidableEq, Repr

/-- A call made to the injected `FeatureGuardStore` during one
`canActivate` run. -/
inductive StoreCall where
  | getFeatureCall (flag : String)
  | hasFeatureFlagCall (flag : String) (userId : String)
deriving DecidableEq, Repr

/-- The observable outcome of one `canActivate` run: the returned boolean,
the resulting `__feature_flags` object of the request, and the store calls
performed, in order. -/
structure GuardResult where
  allowed : Bool
  featureFlags : List (String × Bool)
  calls : List StoreCall
deriving DecidableEq, Repr

/-- The JavaScript object spread `{ ...old, [k]: v }`: when `k` is already a
key its value is updated in place, otherwise the pair is appended. -/
def setObjectKey : List (String × Bool) → String → Bool → List (String × Bool)
  | [], k, v => [(k, v)]
  | (k1, v1) :: rest, k, v =>
    if k1 = k then (k1, v) :: rest else (k1, v1) :: setObjectKey rest k v

/-- Property read `obj[k]` on the association-list model of a JavaScript
object: the value at the first occurrence of `k`, `none` when absent. -/
def lookupFlag : List (String × Bool) → String → Option Bool
  | [], _ => none
  | (k1, v1) :: rest, k => if k1 = k then some v1 else lookupFlag rest k

/-- `feature?.enabled === true` from the source: false when `getFeature`
returned null. -/
def featureEnabled (feature : Option Feature) : Bool :=
  match feature with
  | some fe => fe.enabled
  | none => false

/-- `FeatureGuard.canActivate` over one store state: denies when no user id
is present and `__is_admin` is not strictly `true`; grants immediately for a
strict-boolean admin; denies when no flag metadata is present; otherwise
fetches the feature, checks user access, records the evaluated value in
`__feature_flags`, and decides by scope (SERVICE always passes, CONTROLLER
requires the feature enabled and the user allowed). -/
def canActivate (st : RedisState) (r : ReflectorData) (req : FeatureGuardRequest) :
    GuardResult :=
  if req.userId.isNone && !(isAdminStrictTrue req.isAdmin) then
    { allowed := false, featureFlags := req.featureFlags, calls := [] }
  else if isAdminStrictTrue req.isAdmin then
    { allowed := true, featureFlags := req.featureFlags, calls := [] }
  else
    match r.flag with
    | none => { allowed := false, featureFlags := req.featureFlags, calls := [] }
    | some flag =>
      let feature := getFeature st flag
      let hasFlag :=
        match req.userId with
        | some uid => hasFeatureFlag st flag uid
        | none => false
      let calls :=
        match req.userId with
        | some uid => [StoreCall.getFeatureCall flag,
                       StoreCall.hasFeatureFlagCall flag uid]
        | none => [StoreCall.getFeatureCall flag]
      let newFlags := setObjectKey req.featureFlags flag (featureEnabled feature && hasFlag)
      let allowed :=
        if r.scope = some FeatureFlagScope.SERVICE then true
        else featureEnabled feature && hasFlag
      { allowed := allowed, featureFlags := newFlags, calls := calls }

/-- The per-flag evaluated value for a user: `feature?.enabled === true &&
hasFlag`, exactly the value `canActivate` stores into `__feature_flags`
and, under CONTROLLER scope, returns. -/
def flagValue (st : RedisState) (flag : String) (userId : String) : Bool :=
  featureEnabled (getFeature st flag) && hasFeatureFlag st flag userId

/-- Modelled from the spec: the repository's guard evaluates a single flag
per `canActivate` call (the `@FeatureFlag` decorator stores one flag name),
and no multi-flag aggregator exists in the source; this is the per-flag
resolution loop of the spec's `evaluate(identity, flagNames, scope)` with
the per-flag body taken from `canActivate`: every name of `flagNames` is
processed in declared order with no short-circuiting, each evaluated value
is written into the result map, and the CONTROLLER decision is the
conjunction of the per-flag values.  Returns the conjunction, the updated
map and the store calls in order. -/
def evaluateFlags (st : RedisState) (userId : String) :
    List (String × Bool) → List String → Bool × List (String × Bool) × List StoreCall
  | m, [] => (true, m, [])
  | m, f :: rest =>
    let v := flagValue st f userId
    let r := evaluateFlags st userId (setObjectKey m f v) rest
    (v && r.1, r.2.1,
      StoreCall.getFeatureCall f :: StoreCall.hasFeatureFlagCall f userId :: r.2.2)

/-- The flag-record decision rule as the spec words it, applied to a record
returned by `getFeature` (null record, disabled, absent user list, else
membership); used only to compare the `getFeature` read path with the
`hasFeatureFlag` read path. -/
def decisionRule (r : Option Feature) (userId : String) : Bool :=
  match r with
  | none => false
  | some fe =>
    if !fe.enabled then false
    else
      match fe.userIds with
      | none => true
      | some ids => ids.contains userId

/-- A small concrete Redis state used to instantiate the theorems: `beta`
is enabled and targeted at `u1`, `u2`; `glob` is enabled with no user set;
`off` is disabled; `corrupt` holds a non-canonical enabled marker; every
other flag was never written. -/
def testState : RedisState := fun f =>
  if f = "beta" then { enabledField := some "true", users := ["u1", "u2"] }
  else if f = "glob" then { enabledField := some "true", users := [] }
  else if f = "off" then { enabledField := some "false", users := ["u1"] }
  else if f = "corrupt" then { enabledField := some "not_a_boolean", users := ["u1"] }
  else { enabledField := none, users := [] }

theorem isAdminStrictTrue_eq_false {a : JsVal} (h : a ≠ JsVal.vBool true) :
    isAdminStrictTrue a = false := by
  cases a with
  | vBool b =>
    cases b
    · rfl
    · exact absurd rfl h
  | vStr s => rfl
  | vNum n => rfl
  | vObj => rfl
  | vArr => rfl
  | vUndefined => rfl

theorem mem_sadd (l : List String) : ∀ cur x, x ∈ sadd cur l ↔ x ∈ cur ∨ x ∈ l := by
  induction l with
  | nil => intro cur x; simp [sadd]
  | cons a t ih =>
    intro cur x
    have h1 : sadd cur (a :: t) = sadd (if cur.contains a then cur else cur ++ [a]) t := rfl
    rw [h1, ih]
    by_cases hc : cur.contains a = true
    · have ha : a ∈ cur := by simpa using hc
      simp only [hc, if_pos]
      constructor
      · intro hx
        rcases hx with hx | hx
        · exact Or.inl hx
        · exact Or.inr (List.mem_cons_of_mem a hx)
      · intro hx
        rcases hx with hx | hx
        · exact Or.inl hx
        · rcases List.mem_cons.mp hx with hx | hx
          · exact Or.inl (hx ▸ ha)
          · exact Or.inr hx
    · simp only [hc, if_neg, Bool.not_eq_true]
      simp [List.mem_append, List.mem_cons, or_assoc]

theorem sadd_append (cur l1 l2 : List String) :
    sadd cur (l1 ++ l2) = sadd (sadd cur l1) l2 := by
  simp [sadd, List.foldl_append]

theorem saddBatches_eq_sadd_aux (n : Nat) :
    ∀ ids : List String, ids.length ≤ n → ∀ cur, saddBatches cur ids = sadd cur ids := by
  induction n with
  | zero =>
    intro ids h cur
    have hids : ids = [] := List.length_eq_zero.mp (Nat.le_zero.mp h)
    subst hids
    rw [saddBatches]
    simp [sadd]
  | succ n ih =>
    intro ids h cur
    rw [saddBatches]
    by_cases he : ids = []
    · simp [he, sadd]
    · simp only [he, dite_false]
      have hlen : (ids.drop 1000).length ≤ n := by
        have hp : 0 < ids.length := List.length_pos.mpr he
        simp only [List.length_drop]
        omega
      rw [ih (ids.drop 1000) hlen, ← sadd_append, List.take_append_drop]

theorem saddBatches_eq_sadd (cur ids : List String) :
    saddBatches cur ids = sadd cur ids :=
  saddBatches_eq_sadd_aux ids.length ids (Nat.le_refl _) cur

theorem lookupFlag_setObjectKey_self (m : List (String × Bool)) (k : String) (v : Bool) :
    lookupFlag (setObjectKey m k v) k = some v := by
  induction m with
  | nil => simp [setObjectKey, lookupFlag]
  | cons p rest ih =>
    obtain ⟨k1, v1⟩ := p
    by_cases hk : k1 = k
    · simp [setObjectKey, hk, lookupFlag]
    · simp [setObjectKey, hk, lookupFlag, ih]

theorem lookupFlag_setObjectKey_ne (m : List (String × Bool)) (k k2 : String) (v : Bool)
    (h : k2 ≠ k) : lookupFlag (setObjectKey m k v) k2 = lookupFlag m k2 := by
  have hk2 : ¬ (k = k2) := fun hh => h hh.symm
  induction m with
  | nil => simp [setObjectKey, lookupFlag, hk2]
  | cons p rest ih =>
    obtain ⟨k1, v1⟩ := p
    by_cases hk : k1 = k
    · subst hk
      simp [setObjectKey, lookupFlag, hk2]
    · simp only [setObjectKey, hk, if_neg, ite_false]
      by_cases h2 : k1 = k2
      · simp [lookupFlag, h2]
      · simp [lookupFlag, h2, ih]

theorem evaluateFlags_allowed (st : RedisState) (u : String) :
    ∀ (names : List String) (m : List (String × Bool)),
      (evaluateFlags st u m names).1 = names.all (fun f => flagValue st f u) := by
  intro names
  induction names with
  | nil => intro m; rfl
  | cons g rest ih => intro m; simp [evaluateFlags, ih]

theorem evaluateFlags_calls (st : RedisState) (u : String) :
    ∀ (names : List String) (m : List (String × Bool)),
      (evaluateFlags st u m names).2.2 =
        (names.map (fun f =>
          [StoreCall.getFeatureCall f, StoreCall.hasFeatureFlagCall f u])).flatten := by
  intro names
  induction names with
  | nil => intro m; rfl
  | cons g rest ih => intro m; simp [evaluateFlags, ih]

theorem evaluateFlags_lookup_of_not_mem (st : RedisState) (u : String) :
    ∀ (names : List String) (m : List (String × Bool)) (f : String), f ∉ names →
      lookupFlag (evaluateFlags st u m names).2.1 f = lookupFlag m f := by
  intro names
  induction names with
  | nil => intro m f _; rfl
  | cons g rest ih =>
    intro m f hf
    have hfg : f ≠ g := fun hh => hf (hh ▸ List.mem_cons_self g rest)
    have hfr : f ∉ rest := fun hh => hf (List.mem_cons_of_mem g hh)
    simp only [evaluateFlags]
    rw [ih _ f hfr, lookupFlag_setObjectKey_ne _ _ _ _ hfg]

theorem evaluateFlags_lookup_of_mem (st : RedisState) (u : String) :
    ∀ (names : List String) (m : List (String × Bool)) (f : String), f ∈ names →
      lookupFlag (evaluateFlags st u m names).2.1 f = some (flagValue st f u) := by
  intro names
  induction names with
  | nil => intro m f hf; exact absurd hf (List.not_mem_nil f)
  | cons g rest ih =>
    intro m f hf
    by_cases hfr : f ∈ rest
    · simpa [evaluateFlags] using ih _ f hfr
    · have hfg : f = g := by
        rcases List.mem_cons.mp hf with h | h
        · exact h
        · exact absurd h hfr
      subst hfg
      simp only [evaluateFlags]
      rw [evaluateFlags_lookup_of_not_mem st u rest _ f hfr, lookupFlag_setObjectKey_self]

/-- C1: for every flag name and user id, `hasFeatureFlag` returns false when
the info hash has no `enabled` field; false when the `enabled` field holds
any string other than `"true"` (including `"false"` and corrupted values,
with no error); true when the field is `"true"` and the user set is empty
or absent; and the membership test when the field is `"true"` and the user
set is non-empty. -/
theorem C1_hasFeatureFlag_decision (st : RedisState) (f u : String) :
    ((st f).enabledField = none → hasFeatureFlag st f u = false) ∧
    (∀ s, (st f).enabledField = some s → s ≠ "true" → hasFeatureFlag st f u = false) ∧
    ((st f).enabledField = some "true" → (st f).users = [] →
      hasFeatureFlag st f u = true) ∧
    ((st f).enabledField = some "true" → (st f).users ≠ [] →
      hasFeatureFlag st f u = (st f).users.contains u) := by
  refine ⟨?_, ?_, ?_, ?_⟩
  · intro h
    simp [hasFeatureFlag, h]
  · intro s hs hne
    have hb : (s == "true") = false := by simp [hne]
    simp [hasFeatureFlag, hs, hb]
  · intro hs hu
    simp [hasFeatureFlag, hs, hu]
  · intro hs hu
    have hl : (st f).users.length > 0 := by
      cases hc : (st f).users with
      | nil => exact absurd hc hu
      | cons a t => simp
    simp [hasFeatureFlag, hs, hl]

/-- Witness for C1 at the concrete store state. -/
theorem C1_hasFeatureFlag_decision_witness :
    hasFeatureFlag testState "ghost" "u1" = false ∧
    hasFeatureFlag testState "corrupt" "u1" = false ∧
    hasFeatureFlag testState "glob" "anyone" = true ∧
    hasFeatureFlag testState "beta" "u1" = (["u1", "u2"].contains "u1") :=
  ⟨(C1_hasFeatureFlag_decision testState "ghost" "u1").1 rfl,
   (C1_hasFeatureFlag_decision testState "corrupt" "u1").2.1 "not_a_boolean" rfl (by decide),
   (C1_hasFeatureFlag_decision testState "glob" "anyone").2.2.1 rfl rfl,
   (C1_hasFeatureFlag_decision testState "beta" "u1").2.2.2 rfl (by decide)⟩

/-- C2: for an identity whose `__is_admin` is strictly the boolean `true`,
`canActivate` returns true immediately: no store method is invoked and the
request's `__feature_flags` map is left unchanged, whatever the store state
and metadata (even for disabled or absent flags). -/
theorem C2_admin_bypass (st : RedisState) (r : ReflectorData)
    (req : FeatureGuardRequest) (h : req.isAdmin = JsVal.vBool true) :
    canActivate st r req =
      { allowed := true, featureFlags := req.featureFlags, calls := [] } := by
  simp [canActivate, h, isAdminStrictTrue]

/-- Witness for C2: an admin with a disabled flag configured and no user
id still passes, with no store call and an untouched map. -/
theorem C2_admin_bypass_witness :
    canActivate testState { flag := some "off", scope := none }
        { userId := none, isAdmin := JsVal.vBool true, featureFlags := [("x", false)] } =
      { allowed := true, featureFlags := [("x", false)], calls := [] } :=
  C2_admin_bypass testState _ _ rfl

/-- C3: any `__is_admin` value other than the boolean `true` (the string
`"true"`, the number 1, an object, an array, `false`, `undefined`) never
takes the admin bypass: the run equals the run with `__is_admin = false`
(the normal denial-capable path), and such an identity without a user id is
denied. -/
theorem C3_no_bypass_for_nonbool (st : RedisState) (r : ReflectorData)
    (req : FeatureGuardRequest) (h : req.isAdmin ≠ JsVal.vBool true) :
    canActivate st r req =
      canActivate st r { req with isAdmin := JsVal.vBool false } ∧
    (req.userId = none → (canActivate st r req).allowed = false) := by
  have hf : isAdminStrictTrue req.isAdmin = false := isAdminStrictTrue_eq_false h
  constructor
  · simp only [canActivate, hf, isAdminStrictTrue]
  · intro hu
    simp [canActivate, hf, hu]

/-- Witness for C3 with the string `"true"` as `__is_admin`. -/
theorem C3_no_bypass_for_nonbool_witness :
    (canActivate testState { flag := some "glob", scope := none }
        { userId := none, isAdmin := JsVal.vStr "true", featureFlags := [] } =
      canActivate testState { flag := some "glob", scope := none }
        { userId := none, isAdmin := JsVal.vBool false, featureFlags := [] }) ∧
    (canActivate testState { flag := some "glob", scope := none }
        { userId := none, isAdmin := JsVal.vStr "true", featureFlags := [] }).allowed
      = false := by
  have h := C3_no_bypass_for_nonbool testState { flag := some "glob", scope := none }
      { userId := none, isAdmin := JsVal.vStr "true", featureFlags := [] } (by decide)
  exact ⟨h.1, h.2 rfl⟩

/-- C4: with `__user_id` undefined and `__is_admin` not strictly boolean
`true`, `canActivate` denies without invoking any store method and without
mutating `__feature_flags` — a denial, not an error. -/
theorem C4_anonymous_denial (st : RedisState) (r : ReflectorData)
    (req : FeatureGuardRequest) (hu : req.userId = none)
    (ha : req.isAdmin ≠ JsVal.vBool true) :
    canActivate st r req =
      { allowed := false, featureFlags := req.featureFlags, calls := [] } := by
  have hf : isAdminStrictTrue req.isAdmin = false := isAdminStrictTrue_eq_false ha
  simp [canActivate, hu, hf]

/-- Witness for C4 at a concrete anonymous request. -/
theorem C4_anonymous_denial_witness :
    canActivate testState { flag := some "glob", scope := none }
        { userId := none, isAdmin := JsVal.vUndefined, featureFlags := [("a", true)] } =
      { allowed := false, featureFlags := [("a", true)], calls := [] } :=
  C4_anonymous_denial testState _ _ rfl (by decide)

/-- C5: for a non-admin identity with a user id, the evaluate loop resolves
every name of the configured list in declared order with no
short-circuiting (two store calls per name, in list order), the result map
gets an entry for every listed name even when the overall decision is a
denial, and under CONTROLLER scope the decision is the conjunction of the
per-flag values. -/
theorem C5_all_flags_resolved (st : RedisState) (u : String)
    (names : List String) (m : List (String × Bool)) :
    (evaluateFlags st u m names).2.2 =
      (names.map (fun f =>
        [StoreCall.getFeatureCall f, StoreCall.hasFeatureFlagCall f u])).flatten ∧
    (∀ f, f ∈ names →
      lookupFlag (evaluateFlags st u m names).2.1 f = some (flagValue st f u)) ∧
    (evaluateFlags st u m names).1 = names.all (fun f => flagValue st f u) :=
  ⟨evaluateFlags_calls st u names m,
   fun f hf => evaluateFlags_lookup_of_mem st u names m f hf,
   evaluateFlags_allowed st u names m⟩

/-- Witness for C5: flags `glob` (true for the user) and `off` (false);
the decision is a denial, yet both store-call pairs happen in order and the
map holds both entries. -/
theorem C5_all_flags_resolved_witness :
    (evaluateFlags testState "u1" [] ["glob", "off"]).2.2 =
      [StoreCall.getFeatureCall "glob", StoreCall.hasFeatureFlagCall "glob" "u1",
       StoreCall.getFeatureCall "off", StoreCall.hasFeatureFlagCall "off" "u1"] ∧
    lookupFlag (evaluateFlags testState "u1" [] ["glob", "off"]).2.1 "off" = some false ∧
    (evaluateFlags testState "u1" [] ["glob", "off"]).1 = false := by
  have h := C5_all_flags_resolved testState "u1" ["glob", "off"] []
  have h2 := h.2.1 "off" (by decide)
  have hv : flagValue testState "off" "u1" = false := by decide
  rw [hv] at h2
  have h3 := h.2.2
  have ha : (["glob", "off"].all fun f => flagValue testState f "u1") = false := by decide
  rw [ha] at h3
  exact ⟨by simpa using h.1, h2, h3⟩

/-- C6: under SERVICE scope, an evaluation with a user id and a configured
flag always returns allowed, whatever the per-flag truth values in the
store: flag values are only recorded for downstream logic. -/
theorem C6_service_scope_allows (st : RedisState) (r : ReflectorData)
    (req : FeatureGuardRequest) (u f : String) (hu : req.userId = some u)
    (hf : r.flag = some f) (hs : r.scope = some FeatureFlagScope.SERVICE) :
    (canActivate st r req).allowed = true := by
  cases ha : isAdminStrictTrue req.isAdmin with
  | true => simp [canActivate, hu, ha]
  | false => simp [canActivate, hu, hf, hs, ha]

/-- Witness for C6: SERVICE scope on the disabled flag `off` with a
non-listed user still proceeds. -/
theorem C6_service_scope_allows_witness :
    (canActivate testState
        { flag := some "off", scope := some FeatureFlagScope.SERVICE }
        { userId := some "u9", isAdmin := JsVal.vBool false,
          featureFlags := [] }).allowed = true :=
  C6_service_scope_allows testState _ _ "u9" "off" rfl rfl rfl

/-- C7: `getFeature` returns null exactly when no `enabled` field is
present in the flag's info hash (never written, or metadata lacking the
marker); in every other case it returns a record. -/
theorem C7_getFeature_null_iff (st : RedisState) (f : String) :
    getFeature st f = none ↔ (st f).enabledField = none := by
  cases h : (st f).enabledField with
  | none => simp [getFeature, h]
  | some v => simp [getFeature, h]

/-- C8: `setFeatureFlag` wholesale replaces a flag's record: a second call
for the same flag makes the first call irrelevant on the whole state (hence
no merging of user sets, and idempotence when the calls coincide), the
stored user set after a call holds exactly the members of the given
userIds, and an absent userIds list leaves the user set deleted. -/
theorem C8_setFeatureFlag_wholesale (st : RedisState)
    (o1 o2 : SetFeatureFlagOptions) (h : o1.flag = o2.flag) :
    (∀ f, setFeatureFlag (setFeatureFlag st o1) o2 f = setFeatureFlag st o2 f) ∧
    (∀ ids, o2.userIds = some ids →
      ∀ x, x ∈ (setFeatureFlag st o2 o2.flag).users ↔ x ∈ ids) ∧
    (o2.userIds = none → (setFeatureFlag st o2 o2.flag).users = []) := by
  refine ⟨?_, ?_, ?_⟩
  · intro f
    by_cases hf : f = o2.flag
    · cases hids : o2.userIds with
      | none => simp [setFeatureFlag, hf, hids]
      | some ids =>
        by_cases hlen : ids.length > 0
        · simp [setFeatureFlag, hf, hids, hlen]
        · simp [setFeatureFlag, hf, hids, hlen]
    · have hf1 : ¬ (f = o1.flag) := by rw [h]; exact hf
      simp [setFeatureFlag, hf, hf1]
  · intro ids hids x
    by_cases hlen : ids.length > 0
    · have husers : (setFeatureFlag st o2 o2.flag).users = saddBatches [] ids := by
        simp [setFeatureFlag, hids, hlen]
      rw [husers, saddBatches_eq_sadd, mem_sadd]
      simp
    · have hnil : ids = [] := by
        cases hc : ids with
        | nil => rfl
        | cons a t => rw [hc] at hlen; simp at hlen
      subst hnil
      simp [setFeatureFlag, hids]
  · intro hids
    simp [setFeatureFlag, hids]

/-- Witness for C8: writing `beta` with users a, b then with user c leaves
the state as if only the second call happened, and the stored set is
exactly the second list. -/
theorem C8_setFeatureFlag_wholesale_witness :
    (setFeatureFlag (setFeatureFlag testState
        { flag := "beta", enabled := true, userIds := some ["a", "b"] })
        { flag := "beta", enabled := true, userIds := some ["c"] } "beta").users
      = (setFeatureFlag testState
        { flag := "beta", enabled := true, userIds := some ["c"] } "beta").users ∧
    (∀ x, x ∈ (setFeatureFlag testState
        { flag := "beta", enabled := true, userIds := some ["c"] } "beta").users
        ↔ x ∈ ["c"]) := by
  have h := C8_setFeatureFlag_wholesale testState
      { flag := "beta", enabled := true, userIds := some ["a", "b"] }
      { flag := "beta", enabled := true, userIds := some ["c"] } rfl
  exact ⟨congrArg FlagEntry.users (h.1 "beta"), fun x => h.2.1 ["c"] rfl x⟩

/-- C9: when `canActivate` records an evaluated flag result (a non-admin
identity with a user id and a configured flag), the new `__feature_flags`
map equals the old one with only the evaluated flag's entry overwritten:
the evaluated name maps to the new result and every other name keeps its
prior value. -/
theorem C9_feature_flags_frame (st : RedisState) (r : ReflectorData)
    (req : FeatureGuardRequest) (u f : String) (hu : req.userId = some u)
    (ha : req.isAdmin ≠ JsVal.vBool true) (hf : r.flag = some f) :
    lookupFlag (canActivate st r req).featureFlags f = some (flagValue st f u) ∧
    ∀ k, k ≠ f →
      lookupFlag (canActivate st r req).featureFlags k
        = lookupFlag req.featureFlags k := by
  have hb : isAdminStrictTrue req.isAdmin = false := isAdminStrictTrue_eq_false ha
  have hres : (canActivate st r req).featureFlags =
      setObjectKey req.featureFlags f (flagValue st f u) := by
    simp [canActivate, hu, hb, hf, flagValue]
  rw [hres]
  exact ⟨lookupFlag_setObjectKey_self _ _ _,
    fun k hk => lookupFlag_setObjectKey_ne _ _ _ _ hk⟩

/-- Witness for C9: evaluating `beta` for `u1` overwrites the `beta` entry
and preserves the unrelated `other` entry. -/
theorem C9_feature_flags_frame_witness :
    lookupFlag (canActivate testState { flag := some "beta", scope := none }
        { userId := some "u1", isAdmin := JsVal.vBool false,
          featureFlags := [("other", true)] }).featureFlags "beta"
      = some (flagValue testState "beta" "u1") ∧
    lookupFlag (canActivate testState { flag := some "beta", scope := none }
        { userId := some "u1", isAdmin := JsVal.vBool false,
          featureFlags := [("other", true)] }).featureFlags "other"
      = lookupFlag [("other", true)] "other" := by
  have h := C9_feature_flags_frame testState { flag := some "beta", scope := none }
      { userId := some "u1", isAdmin := JsVal.vBool false,
        featureFlags := [("other", true)] } "u1" "beta" rfl (by decide) rfl
  exact ⟨h.1, h.2 "other" (by decide)⟩

/-- C10: over one fixed store state the two read paths agree:
`hasFeatureFlag` equals the decision rule applied to `getFeature`'s result,
and `getFeature` never returns a record with an empty `userIds` array. -/
theorem C10_read_paths_agree (st : RedisState) (f u : String) :
    hasFeatureFlag st f u = decisionRule (getFeature st f) u ∧
    (∀ fe, getFeature st f = some fe → fe.userIds ≠ some []) := by
  constructor
  · cases h : (st f).enabledField with
    | none => simp [hasFeatureFlag, getFeature, decisionRule, h]
    | some v =>
      cases hv : v == "true" with
      | false => simp [hasFeatureFlag, getFeature, decisionRule, h, hv]
      | true =>
        by_cases hl : (st f).users.length > 0
        · simp [hasFeatureFlag, getFeature, decisionRule, h, hv, hl]
        · simp [hasFeatureFlag, getFeature, decisionRule, h, hv, hl]
  · intro fe hfe
    cases h : (st f).enabledField with
    | none => simp [getFeature, h] at hfe
    | some v =>
      have hids : fe.userIds =
          if (st f).users.length > 0 then some (st f).users else none := by
        simp [getFeature, h] at hfe
        rw [← hfe]
      rw [hids]
      by_cases hl : (st f).users.length > 0
      · simp only [hl, if_pos]
        intro hc
        have h0 : (st f).users = [] := Option.some.inj hc
        rw [h0] at hl
        simp at hl
      · simp [hl]

/-- Witness for C10 at the targeted flag `beta` and a non-listed user. -/
theorem C10_read_paths_agree_witness :
    hasFeatureFlag testState "beta" "u3"
      = decisionRule (getFeature testState "beta") "u3" ∧
    ({ enabled := true, userIds := some ["u1", "u2"] } : Feature).userIds ≠ some [] := by
  have h := C10_read_paths_agree testState "beta" "u3"
  exact ⟨h.1, h.2 { enabled := true, userIds := some ["u1", "u2"] } (by decide)⟩

end FeatureGuardSpec
